import Mathlib

/-!
Shallow embedding of the package-mapping core of `save_mapping.py`
(clearlinux2gentoo): the lookup index, the override table, the name
transform rules, the category priority ranking and the resolution
algorithm, together with theorems settling the specification claims.

Python dictionaries are modelled as association lists with insertion-order
semantics (updating an existing key keeps its position, a new key is
appended at the end); Python sets are modelled as duplicate-free lists;
floats are modelled as rationals.
-/

set_option maxRecDepth 4096

/-- Lookup in an association list, first matching key wins
(Python d[k] / k in d). -/
def alistGet {α : Type} : List (String × α) → String → Option α
  | [], _ => none
  | (k0, v0) :: rest, k => if k0 = k then some v0 else alistGet rest k

/-- Update an association list at a key (Python d[k] = v): an existing key
keeps its position, a new key is appended at the end. -/
def alistSet {α : Type} : List (String × α) → String → α → List (String × α)
  | [], k, v => [(k, v)]
  | (k0, v0) :: rest, k, v =>
    if k0 = k then (k0, v) :: rest else (k0, v0) :: alistSet rest k v

/-- Python defaultdict(list): d[k].append(v). -/
def alistPush (m : List (String × List String)) (k v : String) :
    List (String × List String) :=
  alistSet m k (((alistGet m k).getD []) ++ [v])

/-- Python defaultdict(dict): d[k1][k2] = v. -/
def alistSet2 (m : List (String × List (String × String)))
    (k1 k2 v : String) : List (String × List (String × String)) :=
  alistSet m k1 (alistSet ((alistGet m k1).getD []) k2 v)

/-- Python set.add, on a duplicate-free list model. -/
def setAdd (s : List String) (v : String) : List String :=
  if v ∈ s then s else s ++ [v]

/-- Python str.lower() (ASCII case folding, as used on package names). -/
def strLower (s : String) : String := ⟨s.data.map Char.toLower⟩

/-- Python str.startswith. -/
def strStartsWith (s pre : String) : Bool := pre.data.isPrefixOf s.data

/-- Python s[n:] (slicing by code points). -/
def strDropChars (s : String) (n : Nat) : String := ⟨s.data.drop n⟩

/-- Python str.strip() on a line (whitespace at both ends). -/
def pyStrip (s : String) : String :=
  ⟨(((s.data.dropWhile Char.isWhitespace).reverse.dropWhile
      Char.isWhitespace).reverse)⟩

/-- Split a character list at the first occurrence of a separator, as
Python s.split(sep, 1) does when the separator occurs; none when the
separator is absent (where the two-name unpacking raises ValueError). -/
def splitFirst (sep : Char) : List Char → Option (List Char × List Char)
  | [] => none
  | c :: cs =>
    if c = sep then some ([], cs)
    else (splitFirst sep cs).map (fun p => (c :: p.1, p.2))

/-- Category part of a "category/name" path: the text before the first
slash. -/
def catOf (s : String) : String := ⟨s.data.takeWhile (fun ch => ch ≠ '/')⟩

/-- Round a rational to the nearest integer, ties to even (the rounding
Python's round() performs), computed on the numerator and denominator:
f is the floor of q and r2 is twice the numerator of the fractional part
over the same denominator, so r2 < den means the fraction is below one
half and r2 = den means an exact tie. -/
def roundHalfEven (q : ℚ) : ℤ :=
  let d : ℤ := (q.den : ℤ)
  let f : ℤ := Int.fdiv q.num d
  let r2 : ℤ := 2 * (q.num - f * d)
  if r2 < d then f
  else if d < r2 then f + 1
  else if f % 2 = 0 then f else f + 1

/-- Python round(q, 3). -/
def round3 (q : ℚ) : ℚ := (roundHalfEven (q * 1000) : ℚ) / 1000

/-- DEFAULT_LOWEST_PRIORITY. -/
def DEFAULT_LOWEST_PRIORITY : Nat := 999

/-- NON_OPTIMIZABLE_CATEGORIES (a Python set; only membership is used). -/
def NON_OPTIMIZABLE_CATEGORIES : List String :=
  ["acct-group", "acct-user", "app-alternatives", "app-dicts", "app-doc",
   "app-emacs", "app-vim", "app-voices", "app-xemacs", "media-fonts",
   "sec-keys", "virtual", "x11-themes"]

/-- MANUAL_PKG_OVERRIDES, in declaration order. -/
def MANUAL_PKG_OVERRIDES : List (String × String) :=
  [("SDL", "media-libs/libsdl"),
   ("fmt", "dev-libs/libfmt"),
   ("httpd", "www-servers/apache"),
   ("intel-media-driver", "media-libs/libva-intel-media-driver"),
   ("intel-hybrid-driver", "media-libs/intel-hybrid-codec-driver"),
   ("CGNS", "sci-libs/cgnslib"),
   ("Linux-PAM", "sys-libs/pam"),
   ("FreeRDP2", "net-misc/freerdp"),
   ("awesome-wm", "x11-wm/awesome"),
   ("bind-utils", "net-dns/bind-tools"),
   ("boinc-client", "sci-misc/boinc"),
   ("ghostscript", "app-text/ghostscript-gpl"),
   ("graphite", "media-gfx/graphite2"),
   ("gtk4", "gui-libs/gtk"),
   ("gtk3", "x11-libs/gtk+"),
   ("gtkspell3", "app-text/gtkspell"),
   ("lcms2", "media-libs/lcms"),
   ("taskwarrior", "app-misc/task"),
   ("thermal_daemon", "sys-power/thermald"),
   ("udisks2", "sys-fs/udisks"),
   ("v4l-utils", "media-libs/libv4l"),
   ("webkitgtk", "net-libs/webkit-gtk"),
   ("xz", "app-arch/xz-utils"),
   ("wine", "app-emulation/wine-vanilla"),
   ("ntfs-3g", "sys-fs/ntfs3g"),
   ("mesa-clc", "dev-util/mesa_clc"),
   ("mediasdk", "media-libs/intel-mediasdk"),
   ("intel-gmmlib", "media-libs/gmmlib"),
   ("icu4c", "dev-libs/icu"),
   ("WireGuard", "net-vpn/wireguard-tools"),
   ("procps-ng", "sys-process/procps"),
   ("utf8proc", "dev-libs/libutf8proc"),
   ("xapian-core", "dev-libs/xapian"),
   ("raptor2", "media-libs/raptor"),
   ("pcre", "dev-libs/libpcre"),
   ("pcre2", "dev-libs/libpcre2"),
   ("openal-soft", "media-libs/openal"),
   ("qcoro6", "dev-libs/qcoro"),
   ("msgpack-c", "dev-libs/msgpack"),
   ("librtlsdr", "net-wireless/rtl-sdr"),
   ("gtk-plus", "x11-libs/gtk+"),
   ("SDL2", "media-libs/libsdl2"),
   ("SDL2_gfx", "media-libs/sdl2-gfx"),
   ("SDL2_image", "media-libs/sdl2-image"),
   ("SDL2_mixer", "media-libs/sdl2-mixer"),
   ("SDL2_net", "media-libs/sdl2-net"),
   ("SDL2_ttf", "media-libs/sdl2-ttf"),
   ("SDL3", "media-libs/libsdl3"),
   ("SFML", "media-libs/libsfml"),
   ("clucene-core", "dev-cpp/clucene"),
   ("gc", "dev-libs/boehm-gc"),
   ("gperftools", "dev-util/google-perftools"),
   ("gtksourceview", "gui-libs/gtksourceview"),
   ("gtksourceview4", "x11-libs/gtksourceview"),
   ("hiredis-c", "dev-libs/hiredis"),
   ("libsigc-plus-plus", "dev-libs/libsigc++"),
   ("ocl-icd", "dev-libs/opencl-icd-loader"),
   ("xorgproto", "x11-base/xorg-proto"),
   ("SDL_gfx", "media-libs/sdl-gfx"),
   ("SDL_image", "media-libs/sdl-image"),
   ("SDL_mixer", "media-libs/sdl-mixer"),
   ("SDL_net", "media-libs/sdl-net"),
   ("SDL_ttf", "media-libs/sdl-ttf"),
   ("xvidcore", "media-libs/xvid"),
   ("arpack-ng", "sci-libs/arpack"),
   ("libMED", "sci-libs/med"),
   ("libgd", "media-libs/gd"),
   ("libzmq", "net-libs/zeromq"),
   ("onig", "dev-libs/oniguruma"),
   ("libftdi1", "dev-embedded/libftdi"),
   ("googletest", "dev-cpp/gtest"),
   ("google-benchmark", "dev-cpp/benchmark"),
   ("google-crc32c", "dev-libs/crc32c"),
   ("not-ffmpeg", "media-video/ffmpeg"),
   ("gstreamer-vaapi", "media-plugins/gst-plugins-vaapi"),
   ("xmlsec1", "dev-libs/xmlsec"),
   ("indi", "sci-libs/indilib"),
   ("kdeconnect-kde", "kde-misc/kdeconnect"),
   ("valkey", "dev-db/redis"),
   ("mc", "app-misc/mc"),
   ("exo", "xfce-base/exo")]

/-- A name transform rule: pattern, required category, optional rewrite. -/
structure TransformRule where
  pat : String
  category : String
  transform : Option String

/-- PREFIX_MAPPINGS, in declaration order (a Python dict iterated in
insertion order). -/
def PREFIX_MAPPINGS : List TransformRule :=
  [⟨"golang-", "dev-go", none⟩,
   ⟨"jdk-", "dev-java", none⟩,
   ⟨"mvn-", "dev-java", none⟩,
   ⟨"perl-", "dev-perl", none⟩,
   ⟨"php-", "dev-php", none⟩,
   ⟨"pypi-", "dev-python", none⟩,
   ⟨"python-", "dev-python", none⟩,
   ⟨"rubygem-", "dev-ruby", none⟩,
   ⟨"qt6", "dev-qt", some "qt"⟩,
   ⟨"zope.", "dev-python", some "zope-"⟩,
   ⟨"pypi-zope.", "dev-python", some "zope-"⟩]

/-- CATEGORY_PRIORITY. -/
def CATEGORY_PRIORITY : List (String × Nat) :=
  [("sys-libs", 10), ("sys-apps", 11), ("sys-devel", 12), ("sys-fs", 13),
   ("sys-process", 14), ("sys-kernel", 15), ("sys-firmware", 16),
   ("sys-boot", 17), ("sys-auth", 18), ("sys-power", 19), ("sys-block", 20),
   ("sys-cluster", 21), ("sys-fabric", 22),
   ("dev-libs", 30), ("media-libs", 31), ("x11-libs", 32), ("net-libs", 33),
   ("sci-libs", 34), ("gui-libs", 35), ("llvm-core", 36),
   ("llvm-runtimes", 37),
   ("app-arch", 40), ("app-crypt", 41), ("app-containers", 42),
   ("app-text", 43), ("app-admin", 44), ("app-misc", 45),
   ("app-editors", 46), ("app-emulation", 47), ("dev-vcs", 48),
   ("dev-util", 49), ("dev-build", 50), ("dev-debug", 51), ("net-misc", 52),
   ("net-fs", 53), ("net-vpn", 54), ("net-analyzer", 55),
   ("dev-lang", 60),
   ("app-shells", 70), ("app-office", 71), ("app-portage", 72),
   ("app-benchmarks", 73), ("app-backup", 74), ("app-forensics", 75),
   ("app-i18n", 76), ("www-servers", 77), ("www-client", 78),
   ("net-dns", 79), ("net-mail", 80), ("net-firewall", 81), ("net-ftp", 82),
   ("net-im", 83), ("net-irc", 84), ("mail-client", 85),
   ("mail-filter", 86), ("mail-mta", 87),
   ("dev-db", 90),
   ("x11-base", 100), ("x11-apps", 101), ("x11-wm", 102),
   ("x11-terms", 103), ("x11-drivers", 104), ("x11-misc", 105),
   ("x11-plugins", 106), ("gnome-base", 107), ("kde-frameworks", 108),
   ("kde-plasma", 109), ("kde-apps", 110), ("kde-misc", 111),
   ("gui-wm", 112), ("gui-apps", 113), ("lxde-base", 114),
   ("lxqt-base", 115), ("xfce-base", 116), ("xfce-extra", 117),
   ("mate-base", 118), ("mate-extra", 119), ("gnome-extra", 120),
   ("phosh-base", 121),
   ("media-gfx", 130), ("media-sound", 131), ("media-video", 132),
   ("media-tv", 133), ("media-plugins", 134), ("media-radio", 135),
   ("mpv-plugin", 136),
   ("sci-mathematics", 140), ("sci-physics", 141), ("sci-chemistry", 142),
   ("sci-astronomy", 143), ("sci-biology", 144), ("sci-electronics", 145),
   ("sci-geosciences", 146), ("sci-visualization", 147),
   ("sci-calculators", 148), ("sci-misc", 149), ("sci-ml", 150),
   ("games-emulation", 160), ("games-engines", 161), ("games-action", 162),
   ("games-arcade", 163), ("games-board", 164), ("games-fps", 165),
   ("games-rpg", 166), ("games-strategy", 167), ("games-puzzle", 168),
   ("games-simulation", 169), ("games-sports", 170),
   ("games-roguelike", 171), ("games-mud", 172), ("games-server", 173),
   ("games-util", 174), ("games-misc", 175), ("games-kids", 176),
   ("app-accessibility", 180), ("app-antivirus", 181), ("app-cdr", 182),
   ("app-eselect", 183), ("app-laptop", 184), ("app-metrics", 185),
   ("app-mobilephone", 186), ("app-officeext", 187), ("app-pda", 188),
   ("net-p2p", 189), ("net-news", 190), ("net-nntp", 191),
   ("net-print", 192), ("net-proxy", 193), ("net-voip", 194),
   ("net-wireless", 195), ("net-client", 196), ("net-nds", 197),
   ("net-dialup", 198), ("sec-policy", 199), ("www-misc", 200),
   ("www-apache", 201), ("www-apps", 202), ("www-plugins", 203),
   ("gnustep-apps", 204), ("gnustep-base", 205), ("gnustep-libs", 206),
   ("dev-embedded", 207), ("dev-games", 208), ("dev-gap", 209),
   ("dev-tex", 210), ("dev-texlive", 211),
   ("dev-cpp", 300), ("dev-tcltk", 310), ("dev-dotnet", 320),
   ("dev-java", 330), ("dev-python", 340), ("dev-ruby", 350),
   ("dev-perl", 360), ("dev-php", 370), ("dev-go", 380),
   ("dev-haskell", 390), ("dev-lua", 400), ("dev-lisp", 410),
   ("dev-scheme", 420), ("dev-ml", 430), ("dev-erlang", 440),
   ("dev-elixir", 450), ("dev-nim", 460), ("dev-crystal", 470),
   ("dev-zig", 480), ("dev-ada", 490), ("dev-hare", 500),
   ("perl-core", 510)]

/-- CATEGORY_PRIORITY.get(x, DEFAULT_LOWEST_PRIORITY). -/
def catRank (c : String) : Nat :=
  (alistGet CATEGORY_PRIORITY c).getD DEFAULT_LOWEST_PRIORITY

/-- A match result: gentoo_match, confidence, all_matches. -/
structure MatchResult where
  gentoo_match : Option String
  confidence : ℚ
  all_matches : List String
deriving DecidableEq

/-- find_manual_override. -/
def find_manual_override (pkg_name : String) : Option MatchResult :=
  match alistGet MANUAL_PKG_OVERRIDES pkg_name with
  | some gentoo_pkg_path => some ⟨some gentoo_pkg_path, 1, [gentoo_pkg_path]⟩
  | none => none

/-- The target catalog: categories in insertion order, each with its
package-name set as a duplicate-free list. -/
abbrev Catalog : Type := List (String × List String)

/-- Add one parsed line to the catalog (defaultdict(set) insertion). -/
def catalogAdd (acc : Catalog) (category pkg_name : String) : Catalog :=
  alistSet acc category (setAdd ((alistGet acc category).getD []) pkg_name)

/-- Loop of load_gentoo_packages over the remaining lines; a line whose
stripped form has no slash raises ValueError, aborting the load. -/
def loadAux : Catalog → List String → Except String Catalog
  | acc, [] => Except.ok acc
  | acc, line :: rest =>
    match splitFirst '/' (pyStrip line).data with
    | none => Except.error "ValueError"
    | some (category, pkg_name) =>
      loadAux (catalogAdd acc ⟨category⟩ ⟨pkg_name⟩) rest

/-- load_gentoo_packages, over the file's lines. -/
def load_gentoo_packages (lines : List String) : Except String Catalog :=
  loadAux [] lines

/-- Membership of a (category, package) pair in a catalog. -/
def catalogMem (cat : Catalog) (c p : String) : Prop :=
  ∃ ps, alistGet cat c = some ps ∧ p ∈ ps

/-- The lookup tables of PackageMatcher. -/
structure PackageMatcher where
  pkg_case_by_category : List (String × List (String × String))
  lowercase_pkg_names : List String
  pkg_to_eligible_categories : List (String × List String)

/-- Body of the inner loop of _build_lookup_tables, for one
(category, pkg) pair. -/
def addPkg (m : PackageMatcher) (category pkg : String) : PackageMatcher :=
  { pkg_case_by_category :=
      alistSet2 m.pkg_case_by_category (strLower pkg) category pkg,
    lowercase_pkg_names := setAdd m.lowercase_pkg_names (strLower pkg),
    pkg_to_eligible_categories :=
      if category ∈ NON_OPTIMIZABLE_CATEGORIES then
        m.pkg_to_eligible_categories
      else alistPush m.pkg_to_eligible_categories (strLower pkg) category }

/-- PackageMatcher.__init__ / _build_lookup_tables. -/
def buildMatcher (catalog : Catalog) : PackageMatcher :=
  catalog.foldl
    (fun m cp => cp.2.foldl (fun m2 pkg => addPkg m2 cp.1 pkg) m)
    ⟨[], [], []⟩

/-- PackageMatcher.find_matching_categories. -/
def find_matching_categories (m : PackageMatcher) (pkg_name : String) :
    List String :=
  (alistGet m.pkg_to_eligible_categories (strLower pkg_name)).getD []

/-- PackageMatcher.get_case_in_category: the source tests membership of
the case-folded name and then of the category before indexing, which is
exactly lookup against the (possibly absent, hence empty) inner table. -/
def get_case_in_category (m : PackageMatcher) (pkg_name category : String) :
    Option String :=
  alistGet ((alistGet m.pkg_case_by_category (strLower pkg_name)).getD [])
    category

/-- PackageMatcher.package_exists. -/
def package_exists (m : PackageMatcher) (pkg_name : String) : Bool :=
  decide (strLower pkg_name ∈ m.lowercase_pkg_names)

/-- One comparison step of Python min with the rank as key: a later
element replaces the current best only when its key is strictly
smaller. -/
def selStep (best x : String) : String :=
  if catRank x < catRank best then x else best

/-- select_best_category: Python min with the rank as key returns the
first element attaining the minimal rank. -/
def select_best_category (categories : List String) : String :=
  match categories with
  | [] => ""
  | [c] => c
  | c :: rest => rest.foldl selStep c

/-- calculate_confidence. -/
def calculate_confidence (matching_categories : List String) : ℚ :=
  if matching_categories = [] then 0
  else if matching_categories.length = 1 then 0.8
  else round3 (1 / (matching_categories.length : ℚ))

/-- create_match_result (all_matches or []). -/
def create_match_result (gentoo_match : Option String) (confidence : ℚ)
    (all_matches : Option (List String)) : MatchResult :=
  ⟨gentoo_match, confidence, all_matches.getD []⟩

/-- Apply one transform rule: rewrite prepended to the stripped base name,
or just the prefix-stripped base name. -/
def applyRule (r : TransformRule) (pkg_name : String) : String :=
  match r.transform with
  | some t => t ++ strDropChars pkg_name r.pat.length
  | none => strDropChars pkg_name r.pat.length

/-- Loop of extract_package_info over the rule table. -/
def extractAux : List TransformRule → String → String × Option String
  | [], pkg_name => (pkg_name, none)
  | r :: rest, pkg_name =>
    if strStartsWith pkg_name r.pat then (applyRule r pkg_name, some r.category)
    else extractAux rest pkg_name

/-- extract_package_info. -/
def extract_package_info (pkg_name : String) : String × Option String :=
  extractAux PREFIX_MAPPINGS pkg_name

/-- The required-category narrowing inside try_map_package; none models
the early return None, and a falsy required category (None or the empty
string) leaves the list unconstrained. -/
def constrainCats (matching_categories : List String)
    (required_category : Option String) : Option (List String) :=
  match required_category with
  | none => some matching_categories
  | some rc =>
    if rc = "" then some matching_categories
    else if rc ∈ matching_categories then some [rc]
    else none

/-- One iteration of the all_matches loop: the per-category spelling,
formatted as category/spelling when truthy (non-empty), as the Python
`if category_specific_case:` test demands. -/
def entryFor (m : PackageMatcher) (pkg_name category : String) :
    Option String :=
  match get_case_in_category m pkg_name category with
  | none => none
  | some s => if s = "" then none else some (category ++ "/" ++ s)

/-- try_map_package. -/
def try_map_package (pkg_name : String) (matcher : PackageMatcher)
    (required_category : Option String) : Option MatchResult :=
  match find_manual_override pkg_name with
  | some r => some r
  | none =>
    if package_exists matcher pkg_name then
      if find_matching_categories matcher pkg_name = [] then none
      else
        match constrainCats (find_matching_categories matcher pkg_name)
            required_category with
        | none => none
        | some matching_categories =>
          match entryFor matcher pkg_name
              (select_best_category matching_categories) with
          | none => none
          | some best_match =>
            some (create_match_result (some best_match)
              (calculate_confidence matching_categories)
              (some (matching_categories.filterMap
                (fun c => entryFor matcher pkg_name c))))
    else none

/-- map_package. -/
def map_package (pkg_name : String) (matcher : PackageMatcher) :
    MatchResult :=
  match try_map_package pkg_name matcher none with
  | some r => r
  | none =>
    match extract_package_info pkg_name with
    | (transformed_name, required_category) =>
      if transformed_name = pkg_name then create_match_result none 0 none
      else
        match try_map_package transformed_name matcher required_category with
        | some r => r
        | none => create_match_result none 0 none

/-- The lookup-table consistency invariant maintained by
_build_lookup_tables: every category the eligible-categories index
reports for a name is optimizable, the name is in the existence set,
and the per-category case table holds a spelling for it satisfying Q. -/
def MatcherInv (Q : String → String → Prop) (m : PackageMatcher) : Prop :=
  ∀ name c, c ∈ find_matching_categories m name →
    c ∉ NON_OPTIMIZABLE_CATEGORIES ∧ package_exists m name = true ∧
    ∃ s, get_case_in_category m name c = some s ∧ Q c s

lemma alistGet_alistSet {α : Type} (m : List (String × α)) (k k' : String)
    (v : α) :
    alistGet (alistSet m k v) k' = if k = k' then some v else alistGet m k' := by
  induction m with
  | nil => simp [alistSet, alistGet]
  | cons hd tl ih =>
    obtain ⟨k0, v0⟩ := hd
    by_cases h0 : k0 = k
    · subst h0
      by_cases h : k0 = k' <;> simp [alistSet, alistGet, h]
    · by_cases h : k0 = k'
      · subst h
        have hk : ¬ k = k0 := fun hh => h0 hh.symm
        simp [alistSet, alistGet, h0, hk]
      · simp [alistSet, alistGet, h0, h, ih]

lemma mem_setAdd (s : List String) (v x : String) :
    x ∈ setAdd s v ↔ x = v ∨ x ∈ s := by
  unfold setAdd
  by_cases h : v ∈ s
  · simp only [if_pos h]
    constructor
    · exact fun hx => Or.inr hx
    · rintro (rfl | hx)
      · exact h
      · exact hx
  · simp [if_neg h, List.mem_append, or_comm]

lemma alistGet_mem {α : Type} (m : List (String × α)) (k : String) (v : α)
    (h : alistGet m k = some v) : (k, v) ∈ m := by
  induction m with
  | nil => simp [alistGet] at h
  | cons hd tl ih =>
    obtain ⟨k0, v0⟩ := hd
    by_cases h0 : k0 = k
    · subst h0
      simp [alistGet] at h
      subst h
      exact List.mem_cons_self _ _
    · simp [alistGet, h0] at h
      exact List.mem_cons_of_mem _ (ih h)

lemma alistGet_alistPush (m : List (String × List String)) (k k' v : String) :
    alistGet (alistPush m k v) k' =
      if k = k' then some (((alistGet m k).getD []) ++ [v])
      else alistGet m k' := by
  unfold alistPush
  exact alistGet_alistSet m k k' _

lemma find_matching_addPkg (m : PackageMatcher) (cat pkg name : String) :
    find_matching_categories (addPkg m cat pkg) name =
      if cat ∉ NON_OPTIMIZABLE_CATEGORIES ∧ strLower pkg = strLower name
      then find_matching_categories m name ++ [cat]
      else find_matching_categories m name := by
  unfold find_matching_categories addPkg
  by_cases hopt : cat ∈ NON_OPTIMIZABLE_CATEGORIES
  · simp [hopt]
  · simp only [if_neg hopt]
    rw [alistGet_alistPush]
    by_cases hl : strLower pkg = strLower name
    · rw [if_pos hl, if_pos ⟨hopt, hl⟩, hl]
      simp
    · rw [if_neg hl, if_neg (fun hand => hl hand.2)]

lemma get_case_addPkg (m : PackageMatcher) (cat pkg name c : String) :
    get_case_in_category (addPkg m cat pkg) name c =
      if strLower pkg = strLower name ∧ cat = c then some pkg
      else get_case_in_category m name c := by
  unfold get_case_in_category addPkg alistSet2
  rw [alistGet_alistSet]
  by_cases hl : strLower pkg = strLower name
  · rw [if_pos hl, Option.getD_some, alistGet_alistSet]
    by_cases hc : cat = c
    · rw [if_pos hc, if_pos ⟨hl, hc⟩]
    · rw [if_neg hc, if_neg (fun hand => hc hand.2), hl]
  · rw [if_neg hl, if_neg (fun hand => hl hand.1)]

lemma package_exists_addPkg (m : PackageMatcher) (cat pkg name : String) :
    package_exists (addPkg m cat pkg) name = true ↔
      strLower name = strLower pkg ∨ package_exists m name = true := by
  unfold package_exists addPkg
  simp only [decide_eq_true_eq]
  exact mem_setAdd _ _ _

lemma matcherInv_addPkg (Q : String → String → Prop) (m : PackageMatcher)
    (cat pkg : String) (h : MatcherInv Q m) (hq : Q cat pkg) :
    MatcherInv Q (addPkg m cat pkg) := by
  intro name c hmem
  rw [find_matching_addPkg] at hmem
  rw [get_case_addPkg, package_exists_addPkg]
  by_cases hcond : cat ∉ NON_OPTIMIZABLE_CATEGORIES ∧ strLower pkg = strLower name
  · rw [if_pos hcond] at hmem
    rcases List.mem_append.mp hmem with hold | hnew
    · obtain ⟨hno, hex, s, hcase, hQ⟩ := h name c hold
      refine ⟨hno, Or.inr hex, ?_⟩
      by_cases hover : strLower pkg = strLower name ∧ cat = c
      · exact ⟨pkg, by rw [if_pos hover], hover.2 ▸ hq⟩
      · exact ⟨s, by rw [if_neg hover]; exact hcase, hQ⟩
    · have hc : c = cat := by simpa using hnew
      subst hc
      refine ⟨hcond.1, Or.inl hcond.2.symm, pkg, ?_, hq⟩
      rw [if_pos ⟨hcond.2, rfl⟩]
  · rw [if_neg hcond] at hmem
    obtain ⟨hno, hex, s, hcase, hQ⟩ := h name c hmem
    refine ⟨hno, Or.inr hex, ?_⟩
    by_cases hover : strLower pkg = strLower name ∧ cat = c
    · exact ⟨pkg, by rw [if_pos hover], hover.2 ▸ hq⟩
    · exact ⟨s, by rw [if_neg hover]; exact hcase, hQ⟩

lemma matcherInv_foldl_pkgs (Q : String → String → Prop) (cat : String) :
    ∀ (pkgs : List String) (m : PackageMatcher), MatcherInv Q m →
      (∀ p ∈ pkgs, Q cat p) →
      MatcherInv Q (pkgs.foldl (fun m2 pkg => addPkg m2 cat pkg) m) := by
  intro pkgs
  induction pkgs with
  | nil => intro m hm _; exact hm
  | cons p rest ih =>
    intro m hm hq
    simp only [List.foldl_cons]
    exact ih _ (matcherInv_addPkg Q m cat p hm (hq p (List.mem_cons_self _ _)))
      (fun x hx => hq x (List.mem_cons_of_mem _ hx))

lemma matcherInv_foldl_catalog (Q : String → String → Prop) :
    ∀ (cps : List (String × List String)) (m : PackageMatcher),
      MatcherInv Q m → (∀ cp ∈ cps, ∀ p ∈ cp.2, Q cp.1 p) →
      MatcherInv Q
        (cps.foldl (fun m cp => cp.2.foldl
          (fun m2 pkg => addPkg m2 cp.1 pkg) m) m) := by
  intro cps
  induction cps with
  | nil => intro m hm _; exact hm
  | cons cp rest ih =>
    intro m hm hq
    simp only [List.foldl_cons]
    exact ih _ (matcherInv_foldl_pkgs Q cp.1 cp.2 m hm
        (fun p hp => hq cp (List.mem_cons_self _ _) p hp))
      (fun x hx p hp => hq x (List.mem_cons_of_mem _ hx) p hp)

lemma matcherInv_empty (Q : String → String → Prop) :
    MatcherInv Q ⟨[], [], []⟩ := by
  intro name c hmem
  simp [find_matching_categories, alistGet] at hmem

lemma buildMatcher_inv (catalog : Catalog) :
    MatcherInv (fun c s => ∃ cp ∈ catalog, cp.1 = c ∧ s ∈ cp.2)
      (buildMatcher catalog) := by
  unfold buildMatcher
  exact matcherInv_foldl_catalog _ catalog ⟨[], [], []⟩ (matcherInv_empty _)
    (fun cp hcp p hp => ⟨cp, hcp, rfl, hp⟩)

lemma foldl_selStep_spec :
    ∀ (xs : List String) (b : String),
      ∃ l1 l2, b :: xs = l1 ++ (xs.foldl selStep b) :: l2
        ∧ (∀ y ∈ l1, catRank (xs.foldl selStep b) < catRank y)
        ∧ ∀ y ∈ b :: xs, catRank (xs.foldl selStep b) ≤ catRank y := by
  intro xs
  induction xs with
  | nil =>
    intro b
    exact ⟨[], [], rfl, by simp, by simp⟩
  | cons x rest ih =>
    intro b
    simp only [List.foldl_cons, selStep]
    by_cases hx : catRank x < catRank b
    · rw [if_pos hx]
      obtain ⟨l1, l2, hdec, hstrict, hmin⟩ := ih x
      refine ⟨b :: l1, l2, by rw [List.cons_append, ← hdec], ?_, ?_⟩
      · intro y hy
        rcases List.mem_cons.mp hy with rfl | hy'
        · exact lt_of_le_of_lt (hmin x (List.mem_cons_self _ _)) hx
        · exact hstrict y hy'
      · intro y hy
        rcases List.mem_cons.mp hy with rfl | hy'
        · exact le_of_lt (lt_of_le_of_lt (hmin x (List.mem_cons_self _ _)) hx)
        · exact hmin y hy'
    · rw [if_neg hx]
      obtain ⟨l1, l2, hdec, hstrict, hmin⟩ := ih b
      have hbx : catRank b ≤ catRank x := le_of_not_lt hx
      cases l1 with
      | nil =>
        have hr : rest.foldl selStep b = b :=
          (by simpa using congrArg (fun l => l.headD "") hdec : _ = _).symm
        refine ⟨[], x :: rest, by simp [hr], by simp, ?_⟩
        intro y hy
        rcases List.mem_cons.mp hy with rfl | hy'
        · exact le_of_eq (congrArg catRank hr)
        · rcases List.mem_cons.mp hy' with rfl | hy''
          · rw [hr]; exact hbx
          · exact hmin y (List.mem_cons_of_mem _ hy'')
      | cons a l1' =>
        have ha : b = a := by
          simpa using congrArg (fun l => l.headD "") hdec
        have htl : rest = l1' ++ (rest.foldl selStep b) :: l2 := by
          simpa using congrArg List.tail hdec
        have hab : catRank (rest.foldl selStep b) < catRank b := by
          conv_rhs => rw [ha]
          exact hstrict a (List.mem_cons_self _ _)
        refine ⟨b :: x :: l1', l2, ?_, ?_, ?_⟩
        · rw [List.cons_append, List.cons_append, ← htl]
        · intro y hy
          rcases List.mem_cons.mp hy with rfl | hy'
          · exact hab
          · rcases List.mem_cons.mp hy' with rfl | hy''
            · exact lt_of_lt_of_le hab hbx
            · exact hstrict y (List.mem_cons_of_mem _ hy'')
        · intro y hy
          rcases List.mem_cons.mp hy with rfl | hy'
          · exact le_of_lt hab
          · rcases List.mem_cons.mp hy' with rfl | hy''
            · exact le_trans (le_of_lt hab) hbx
            · exact hmin y (List.mem_cons_of_mem _ hy'')

lemma select_best_category_cons (c : String) (rest : List String) :
    select_best_category (c :: rest) = rest.foldl selStep c := by
  cases rest <;> rfl

lemma select_best_category_spec (categories : List String)
    (h : categories ≠ []) :
    (∃ l1 l2, categories = l1 ++ (select_best_category categories) :: l2
       ∧ ∀ y ∈ l1, catRank (select_best_category categories) < catRank y)
    ∧ ∀ y ∈ categories,
        catRank (select_best_category categories) ≤ catRank y := by
  cases categories with
  | nil => exact absurd rfl h
  | cons c rest =>
    rw [select_best_category_cons]
    obtain ⟨l1, l2, hdec, hstrict, hmin⟩ := foldl_selStep_spec rest c
    exact ⟨⟨l1, l2, hdec, hstrict⟩, hmin⟩

lemma select_best_category_mem (categories : List String)
    (h : categories ≠ []) :
    select_best_category categories ∈ categories := by
  obtain ⟨⟨l1, l2, hdec, _⟩, _⟩ := select_best_category_spec categories h
  nth_rewrite 1 [hdec]
  exact List.mem_append.mpr (Or.inr (List.mem_cons_self _ _))

lemma constrainCats_mem (mc0 mcs : List String) (req : Option String)
    (h : constrainCats mc0 req = some mcs) : ∀ c ∈ mcs, c ∈ mc0 := by
  cases req with
  | none =>
    simp only [constrainCats] at h
    intro c hc
    cases h
    exact hc
  | some rc =>
    simp only [constrainCats] at h
    by_cases hrc : rc = ""
    · rw [if_pos hrc] at h
      intro c hc
      cases h
      exact hc
    · rw [if_neg hrc] at h
      by_cases hin : rc ∈ mc0
      · rw [if_pos hin] at h
        intro c hc
        cases h
        rcases List.mem_singleton.mp hc with rfl
        exact hin
      · rw [if_neg hin] at h
        exact absurd h (by simp)

lemma constrainCats_ne_nil (mc0 mcs : List String) (req : Option String)
    (h0 : mc0 ≠ []) (h : constrainCats mc0 req = some mcs) : mcs ≠ [] := by
  cases req with
  | none =>
    simp only [constrainCats] at h
    cases h; exact h0
  | some rc =>
    simp only [constrainCats] at h
    by_cases hrc : rc = ""
    · rw [if_pos hrc] at h; cases h; exact h0
    · rw [if_neg hrc] at h
      by_cases hin : rc ∈ mc0
      · rw [if_pos hin] at h; cases h; simp
      · rw [if_neg hin] at h; exact absurd h (by simp)

lemma entryFor_eq_some (m : PackageMatcher) (name c e : String)
    (h : entryFor m name c = some e) :
    ∃ s, get_case_in_category m name c = some s ∧ s ≠ "" ∧
      e = c ++ "/" ++ s := by
  unfold entryFor at h
  cases hcase : get_case_in_category m name c with
  | none =>
    simp only [hcase] at h
    exact absurd h (by simp)
  | some s =>
    simp only [hcase] at h
    by_cases hs : s = ""
    · rw [if_pos hs] at h; exact absurd h (by simp)
    · rw [if_neg hs] at h
      exact ⟨s, rfl, hs, (Option.some.inj h).symm⟩

lemma entryFor_of_spelling (m : PackageMatcher) (name c s : String)
    (hcase : get_case_in_category m name c = some s) (hs : s ≠ "") :
    entryFor m name c = some (c ++ "/" ++ s) := by
  unfold entryFor
  simp only [hcase]
  rw [if_neg hs]

lemma try_map_package_eq_some (name : String) (m : PackageMatcher)
    (req : Option String) (r : MatchResult)
    (h : try_map_package name m req = some r) :
    find_manual_override name = some r ∨
    (find_manual_override name = none ∧
     ∃ mcs e, constrainCats (find_matching_categories m name) req = some mcs ∧
       find_matching_categories m name ≠ [] ∧
       package_exists m name = true ∧
       entryFor m name (select_best_category mcs) = some e ∧
       r = ⟨some e, calculate_confidence mcs,
            mcs.filterMap (fun c => entryFor m name c)⟩) := by
  unfold try_map_package at h
  cases hov : find_manual_override name with
  | some r0 =>
    simp only [hov] at h
    left
    exact h
  | none =>
    simp only [hov] at h
    by_cases hex : package_exists m name = true
    · rw [if_pos hex] at h
      by_cases hmc : find_matching_categories m name = []
      · rw [if_pos hmc] at h
        exact absurd h (by simp)
      · rw [if_neg hmc] at h
        cases hcon : constrainCats (find_matching_categories m name) req with
        | none =>
          simp only [hcon] at h
          exact absurd h (by simp)
        | some mcs =>
          simp only [hcon] at h
          cases hent : entryFor m name (select_best_category mcs) with
          | none =>
            simp only [hent] at h
            exact absurd h (by simp)
          | some e =>
            simp only [hent] at h
            right
            refine ⟨rfl, mcs, e, rfl, hmc, hex, hent, ?_⟩
            rw [← Option.some.inj h]
            rfl
    · rw [if_neg hex] at h
      exact absurd h (by simp)

lemma try_map_package_success (name : String) (m : PackageMatcher)
    (req : Option String) (mcs : List String) (e : String)
    (hov : find_manual_override name = none)
    (hex : package_exists m name = true)
    (hmc : find_matching_categories m name ≠ [])
    (hcon : constrainCats (find_matching_categories m name) req = some mcs)
    (hent : entryFor m name (select_best_category mcs) = some e) :
    try_map_package name m req =
      some ⟨some e, calculate_confidence mcs,
        mcs.filterMap (fun c => entryFor m name c)⟩ := by
  unfold try_map_package
  simp only [hov, if_pos hex, if_neg hmc, hcon, hent]
  rfl

lemma map_package_cases (name : String) (m : PackageMatcher) :
    map_package name m = create_match_result none 0 none ∨
    ∃ nm req r, try_map_package nm m req = some r ∧ map_package name m = r := by
  cases h1 : try_map_package name m none with
  | some r =>
    right
    refine ⟨name, none, r, h1, ?_⟩
    unfold map_package
    simp only [h1]
  | none =>
    rcases hext : extract_package_info name with ⟨tn, rc⟩
    by_cases heq : tn = name
    · left
      unfold map_package
      simp only [h1, hext]
      rw [if_pos heq]
    · cases h2 : try_map_package tn m rc with
      | some r =>
        right
        refine ⟨tn, rc, r, h2, ?_⟩
        unfold map_package
        simp only [h1, hext]
        rw [if_neg heq]
        simp only [h2]
      | none =>
        left
        unfold map_package
        simp only [h1, hext]
        rw [if_neg heq]
        simp only [h2]

lemma length_filterMap_of_isSome {α β : Type} (f : α → Option β) :
    ∀ l : List α, (∀ a ∈ l, (f a).isSome = true) →
      (l.filterMap f).length = l.length := by
  intro l
  induction l with
  | nil => intro _; rfl
  | cons a rest ih =>
    intro hall
    have ha := hall a (List.mem_cons_self _ _)
    cases hfa : f a with
    | none => rw [hfa] at ha; simp at ha
    | some b =>
      rw [List.filterMap_cons, hfa]
      simp only [List.length_cons]
      rw [ih (fun x hx => hall x (List.mem_cons_of_mem _ hx))]

lemma round3_half : round3 (1/2) = 1/2 := by
  have h : (1/2 : ℚ) * 1000 = 500 := by norm_num
  simp only [round3, h]
  have hn : (500 : ℚ).num = 500 := by norm_num
  have hd : ((500 : ℚ).den : ℤ) = 1 := by norm_num
  simp [roundHalfEven, hn, hd, Int.fdiv]
  norm_num

lemma calculate_confidence_singleton (a : String) :
    calculate_confidence [a] = 0.8 := by
  simp [calculate_confidence]

lemma calculate_confidence_pair (a b : String) :
    calculate_confidence [a, b] = 1/2 := by
  have h2 : ((([a, b] : List String).length : Nat) : ℚ) = 2 := by norm_num
  simp only [calculate_confidence, h2]
  rw [if_neg (by simp), if_neg (by simp)]
  exact round3_half

lemma takeWhile_append_all (p : Char → Bool) :
    ∀ (l r : List Char), (∀ x ∈ l, p x = true) →
      (l ++ r).takeWhile p = l ++ r.takeWhile p := by
  intro l
  induction l with
  | nil => intro r _; rfl
  | cons x xs ih =>
    intro r hall
    rw [List.cons_append, List.takeWhile_cons,
      if_pos (hall x (List.mem_cons_self _ _)), List.cons_append]
    rw [ih r (fun y hy => hall y (List.mem_cons_of_mem _ hy))]

lemma catOf_path (c s : String) (h : '/' ∉ c.data) :
    catOf (c ++ "/" ++ s) = c := by
  unfold catOf
  have hd : (c ++ "/" ++ s).data = c.data ++ ('/' :: s.data) := by
    rw [String.data_append, String.data_append, List.append_assoc]
    rfl
  rw [hd, takeWhile_append_all _ _ _ (fun x hx => by
    simp only [decide_eq_true_eq]
    exact fun hc => h (hc ▸ hx))]
  rw [List.takeWhile_cons, if_neg (by simp)]
  simp

lemma override_catOf :
    ∀ p ∈ MANUAL_PKG_OVERRIDES, catOf p.2 ∉ NON_OPTIMIZABLE_CATEGORIES := by
  decide

lemma alistGet_override_mem (k v : String)
    (h : alistGet MANUAL_PKG_OVERRIDES k = some v) :
    catOf v ∉ NON_OPTIMIZABLE_CATEGORIES :=
  override_catOf (k, v) (alistGet_mem _ _ _ h)

lemma find_manual_override_eq_some (name : String) (r : MatchResult)
    (h : find_manual_override name = some r) :
    ∃ p, alistGet MANUAL_PKG_OVERRIDES name = some p ∧
      r = ⟨some p, 1, [p]⟩ := by
  unfold find_manual_override at h
  cases hget : alistGet MANUAL_PKG_OVERRIDES name with
  | none =>
    simp only [hget] at h
    exact absurd h (by simp)
  | some p =>
    simp only [hget] at h
    exact ⟨p, rfl, (Option.some.inj h).symm⟩

lemma isPrefixOf_append_of_length_le :
    ∀ (p a s : List Char), p.length ≤ a.length →
      p.isPrefixOf (a ++ s) = p.isPrefixOf a := by
  intro p
  induction p with
  | nil => intro a s _; simp [List.isPrefixOf]
  | cons x xs ih =>
    intro a s h
    cases a with
    | nil => simp at h
    | cons y ys =>
      simp only [List.cons_append, List.isPrefixOf, List.append_eq]
      rw [ih ys s (Nat.le_of_succ_le_succ h)]

lemma drop_append_of_le :
    ∀ (n : Nat) (l r : List Char), n ≤ l.length →
      (l ++ r).drop n = l.drop n ++ r := by
  intro n
  induction n with
  | zero => intro l r _; rfl
  | succ k ih =>
    intro l r h
    cases l with
    | nil => simp at h
    | cons x xs =>
      simp only [List.cons_append, List.drop_succ_cons]
      exact ih xs r (Nat.le_of_succ_le_succ h)

lemma extractAux_eq_find (rules : List TransformRule) (name : String) :
    extractAux rules name =
      match rules.find? (fun r => strStartsWith name r.pat) with
      | none => (name, none)
      | some r => (applyRule r name, some r.category) := by
  induction rules with
  | nil => rfl
  | cons r rest ih =>
    by_cases h : strStartsWith name r.pat
    · unfold extractAux
      rw [if_pos h]
      simp [List.find?, h]
    · unfold extractAux
      rw [if_neg h]
      rw [ih]
      have hf : strStartsWith name r.pat = false := Bool.eq_false_iff.mpr h
      simp [List.find?, hf]

lemma catalogMem_nil (c p : String) : ¬ catalogMem [] c p := by
  rintro ⟨ps, hget, _⟩
  simp [alistGet] at hget

lemma mem_catalogAdd (acc : Catalog) (c0 p0 c p : String) :
    catalogMem (catalogAdd acc c0 p0) c p ↔
      (c = c0 ∧ p = p0) ∨ catalogMem acc c p := by
  unfold catalogMem catalogAdd
  rw [alistGet_alistSet]
  by_cases hc : c0 = c
  · subst hc
    simp only [if_pos rfl]
    constructor
    · rintro ⟨ps, hps, hp⟩
      cases hps
      rcases (mem_setAdd _ _ _).mp hp with rfl | hp'
      · left
        simp
      · cases hget : alistGet acc c0 with
        | none => rw [hget] at hp'; simp at hp'
        | some ps0 =>
          rw [hget] at hp'
          exact Or.inr ⟨ps0, rfl, hp'⟩
    · rintro (⟨-, rfl⟩ | ⟨ps0, hps0, hp'⟩)
      · exact ⟨_, rfl, (mem_setAdd _ _ _).mpr (Or.inl rfl)⟩
      · refine ⟨_, rfl, (mem_setAdd _ _ _).mpr (Or.inr ?_)⟩
        rw [hps0]
        exact hp'
  · rw [if_neg hc]
    constructor
    · exact fun hmem => Or.inr hmem
    · rintro (⟨rfl, -⟩ | hmem)
      · exact absurd rfl hc
      · exact hmem

lemma loadAux_error :
    ∀ (lines : List String) (acc : Catalog),
      (∃ l ∈ lines, splitFirst '/' (pyStrip l).data = none) →
      loadAux acc lines = Except.error "ValueError" := by
  intro lines
  induction lines with
  | nil =>
    rintro acc ⟨l, hl, -⟩
    simp at hl
  | cons l0 rest ih =>
    rintro acc ⟨l, hl, hbad⟩
    unfold loadAux
    cases hsp : splitFirst '/' (pyStrip l0).data with
    | none => rfl
    | some ab =>
      rcases List.mem_cons.mp hl with rfl | hl'
      · rw [hsp] at hbad
        exact absurd hbad (by simp)
      · exact ih _ ⟨l, hl', hbad⟩

lemma loadAux_ok_mem :
    ∀ (lines : List String) (acc cat : Catalog),
      loadAux acc lines = Except.ok cat →
      ∀ c p, catalogMem cat c p ↔ catalogMem acc c p ∨
        ∃ l ∈ lines, ∃ a b,
          splitFirst '/' (pyStrip l).data = some (a, b) ∧
            c = ⟨a⟩ ∧ p = ⟨b⟩ := by
  intro lines
  induction lines with
  | nil =>
    intro acc cat h c p
    cases h
    simp
  | cons l0 rest ih =>
    intro acc cat h c p
    unfold loadAux at h
    cases hsp : splitFirst '/' (pyStrip l0).data with
    | none =>
      rw [hsp] at h
      exact absurd h (by simp)
    | some ab =>
      rcases ab with ⟨a0, b0⟩
      rw [hsp] at h
      rw [ih _ _ h c p, mem_catalogAdd]
      constructor
      · rintro ((⟨rfl, rfl⟩ | hacc) | ⟨l, hl, a, b, hab, rfl, rfl⟩)
        · exact Or.inr ⟨l0, List.mem_cons_self _ _, a0, b0, hsp, rfl, rfl⟩
        · exact Or.inl hacc
        · exact Or.inr ⟨l, List.mem_cons_of_mem _ hl, a, b, hab, rfl, rfl⟩
      · rintro (hacc | ⟨l, hl, a, b, hab, rfl, rfl⟩)
        · exact Or.inl (Or.inr hacc)
        · rcases List.mem_cons.mp hl with rfl | hl'
          · rw [hsp] at hab
            obtain ⟨ha, hb⟩ := Prod.mk.injEq .. ▸ Option.some.inj hab
            exact Or.inl (Or.inl ⟨by rw [ha], by rw [hb]⟩)
          · exact Or.inr ⟨l, hl', a, b, hab, rfl, rfl⟩

/-- C1: a package name that is an exact key of the override table resolves
to the override's target path with confidence 1.0 and a one-element
all_matches list, for every matcher (hence regardless of what the lookup
index would report for the name or any casing of it). -/
theorem override_key_resolves_to_override (name p : String)
    (m : PackageMatcher)
    (h : alistGet MANUAL_PKG_OVERRIDES name = some p) :
    map_package name m = ⟨some p, 1, [p]⟩ := by
  have hov : find_manual_override name = some ⟨some p, 1, [p]⟩ := by
    unfold find_manual_override
    simp only [h]
  have htry : try_map_package name m none = some ⟨some p, 1, [p]⟩ := by
    unfold try_map_package
    simp only [hov]
  unfold map_package
  simp only [htry]

/-- Witness for C1: the override key SDL resolves to media-libs/libsdl
even against a catalog that contains sdl and SDL entries of its own. -/
theorem override_key_resolves_to_override_witness :
    alistGet MANUAL_PKG_OVERRIDES "SDL" = some "media-libs/libsdl" ∧
    map_package "SDL"
        (buildMatcher [("media-libs", ["sdl"]), ("app-doc", ["SDL"])]) =
      ⟨some "media-libs/libsdl", 1, ["media-libs/libsdl"]⟩ :=
  ⟨rfl, override_key_resolves_to_override "SDL" "media-libs/libsdl" _ rfl⟩

/-- C2 (code bug): mvn-xz is not an override key and is not directly
resolvable against the empty catalog, the mvn- transform rule applies with
required category dev-java, and the transformed name xz has no eligible
category at all — yet map_package returns the xz override mapping with
confidence 1.0 instead of the no-match result, because try_map_package
consults the override table for the transformed name as well (the bug the
source's own TODO comment describes). -/
theorem transformed_override_bug :
    alistGet MANUAL_PKG_OVERRIDES "mvn-xz" = none
  ∧ extract_package_info "mvn-xz" = ("xz", some "dev-java")
  ∧ find_matching_categories (buildMatcher []) "xz" = []
  ∧ map_package "mvn-xz" (buildMatcher []) =
      ⟨some "app-arch/xz-utils", 1, ["app-arch/xz-utils"]⟩ :=
  ⟨rfl, rfl, rfl, rfl⟩

/-- C6 counterexample: a load whose second line lacks the category/name
separator aborts with a ValueError instead of skipping the line and
returning the mapping of the remaining well-formed lines. -/
theorem malformed_line_aborts_load :
    load_gentoo_packages ["app-arch/xz", "noslash"] =
      Except.error "ValueError" := rfl

/-- C6 amended: a malformed catalog line (no category/name separator)
aborts the whole load with a ValueError; when the load does return a
mapping, that mapping contains exactly the parsed well-formed lines. -/
theorem load_aborts_on_malformed_line (lines : List String) :
    ((∃ l ∈ lines, splitFirst '/' (pyStrip l).data = none) →
      load_gentoo_packages lines = Except.error "ValueError")
  ∧ (∀ cat, load_gentoo_packages lines = Except.ok cat →
      ∀ c p, catalogMem cat c p ↔
        ∃ l ∈ lines, ∃ a b,
          splitFirst '/' (pyStrip l).data = some (a, b) ∧
            c = ⟨a⟩ ∧ p = ⟨b⟩) := by
  constructor
  · intro hbad
    exact loadAux_error lines [] hbad
  · intro cat h c p
    rw [loadAux_ok_mem lines [] cat h c p]
    simp [catalogMem_nil]

/-- Witness for C6: a single separator-free line makes the load abort. -/
theorem load_aborts_on_malformed_line_witness :
    load_gentoo_packages ["bad"] = Except.error "ValueError" :=
  (load_aborts_on_malformed_line ["bad"]).1 ⟨"bad", by simp, rfl⟩

/-- C9: resolution is a pure function of the name and the matcher, so two
runs on the same inputs yield identical results — the same best match, the
same confidence and the same all_matches list in the same order (the
embedding fixes the only iteration orders involved: catalog insertion
order and declared rule order). -/
theorem map_package_deterministic (pkg_name : String) (m : PackageMatcher) :
    map_package pkg_name m = map_package pkg_name m
  ∧ (map_package pkg_name m).gentoo_match =
      (map_package pkg_name m).gentoo_match
  ∧ (map_package pkg_name m).confidence =
      (map_package pkg_name m).confidence
  ∧ (map_package pkg_name m).all_matches =
      (map_package pkg_name m).all_matches :=
  ⟨rfl, rfl, rfl, rfl⟩

/-- C3 counterexample: a catalog whose single eligible category dev-libs
holds the same name under two case spellings (Foo and foo) gives the name
foo two entries in the eligible-categories list, so the confidence is
round(1/2, 3) = 0.5 and not the 0.8 the claim requires for a name existing
in exactly one eligible category. -/
theorem duplicate_spelling_confidence_counterexample :
    find_matching_categories (buildMatcher [("dev-libs", ["Foo", "foo"])])
        "foo" = ["dev-libs", "dev-libs"]
  ∧ (map_package "foo"
        (buildMatcher [("dev-libs", ["Foo", "foo"])])).confidence = 1/2
  ∧ (1/2 : ℚ) ≠ 0.8 :=
  ⟨rfl, calculate_confidence_pair "dev-libs" "dev-libs", by norm_num⟩

/-- C3 amended: for a non-override resolution that succeeds, the
confidence is 0.8 when the eligible-categories list for the name has
length one and round(1/length, 3) otherwise, where the list counts one
entry per catalog (category, spelling) pair — a category holding the name
under two case spellings counts twice; on the required-category
(transformed) path the constrained list is a singleton, so the confidence
is 0.8. -/
theorem confidence_matches_entry_count (name : String) (m : PackageMatcher)
    (r : MatchResult) :
    (find_manual_override name = none →
      try_map_package name m none = some r →
      r.confidence =
        if (find_matching_categories m name).length = 1 then 0.8
        else round3 (1 / ((find_matching_categories m name).length : ℚ)))
  ∧ (∀ rc, rc ≠ "" → find_manual_override name = none →
      try_map_package name m (some rc) = some r →
      r.confidence = 0.8) := by
  constructor
  · intro hov htry
    rcases try_map_package_eq_some _ _ _ _ htry with hov' |
      ⟨-, mcs, e, hcon, hmc, -, -, hr⟩
    · rw [hov] at hov'
      exact absurd hov' (by simp)
    · have hmcs : mcs = find_matching_categories m name := by
        simp only [constrainCats] at hcon
        exact (Option.some.inj hcon).symm
      subst hmcs
      rw [hr]
      show calculate_confidence (find_matching_categories m name) = _
      unfold calculate_confidence
      rw [if_neg hmc]
  · intro rc hrc hov htry
    rcases try_map_package_eq_some _ _ _ _ htry with hov' |
      ⟨-, mcs, e, hcon, hmc, -, -, hr⟩
    · rw [hov] at hov'
      exact absurd hov' (by simp)
    · have hmcs : mcs = [rc] := by
        simp only [constrainCats] at hcon
        rw [if_neg hrc] at hcon
        by_cases hin : rc ∈ find_matching_categories m name
        · rw [if_pos hin] at hcon
          exact (Option.some.inj hcon).symm
        · rw [if_neg hin] at hcon
          exact absurd hcon (by simp)
      rw [hr]
      show calculate_confidence mcs = 0.8
      rw [hmcs]
      exact calculate_confidence_singleton rc

/-- Witness for C3: the required-category path on a one-category catalog
returns confidence 0.8. -/
theorem confidence_matches_entry_count_witness :
    (MatchResult.mk (some "dev-libs/foo") 0.8 ["dev-libs/foo"]).confidence
      = 0.8 :=
  (confidence_matches_entry_count "foo" (buildMatcher [("dev-libs", ["foo"])])
      ⟨some "dev-libs/foo", 0.8, ["dev-libs/foo"]⟩).2
    "dev-libs" (by decide) rfl rfl

/-- C4 counterexample: two categories unknown to the priority table share
the default rank; the code picks the one that comes first in the eligible
list (catalog insertion order), zzz-cat, even though aaa-cat is strictly
smaller in natural string order. -/
theorem tie_break_uses_list_order_counterexample :
    (map_package "foo" (buildMatcher
        [("zzz-cat", ["foo"]), ("aaa-cat", ["foo"])])).gentoo_match
      = some "zzz-cat/foo"
  ∧ catRank "zzz-cat" = catRank "aaa-cat"
  ∧ "aaa-cat".data < "zzz-cat".data
  ∧ ("aaa-cat" : String) ≠ "zzz-cat" :=
  ⟨rfl, rfl, by decide, by decide⟩

/-- C4 amended: the selected category always attains the minimal rank
(categories absent from the priority table get the default rank 999,
strictly worse than every explicit entry), and among equal minimal ranks
the selected one is the first in the list order — every earlier list
element has strictly greater rank — rather than the least in string
order. -/
theorem best_category_first_minimal_rank (categories : List String)
    (h : categories ≠ []) :
    (∃ l1 l2, categories = l1 ++ select_best_category categories :: l2
       ∧ ∀ c ∈ l1, catRank (select_best_category categories) < catRank c)
  ∧ (∀ c ∈ categories,
        catRank (select_best_category categories) ≤ catRank c)
  ∧ (∀ p ∈ CATEGORY_PRIORITY, p.2 < DEFAULT_LOWEST_PRIORITY) := by
  refine ⟨(select_best_category_spec categories h).1,
    (select_best_category_spec categories h).2, ?_⟩
  decide

/-- Witness for C4: the first-minimal-rank property at the two-category
tie from the counterexample. -/
theorem best_category_first_minimal_rank_witness :
    (∃ l1 l2, ["zzz-cat", "aaa-cat"] =
        l1 ++ select_best_category ["zzz-cat", "aaa-cat"] :: l2
       ∧ ∀ c ∈ l1,
          catRank (select_best_category ["zzz-cat", "aaa-cat"]) < catRank c)
  ∧ (∀ c ∈ ["zzz-cat", "aaa-cat"],
        catRank (select_best_category ["zzz-cat", "aaa-cat"]) ≤ catRank c)
  ∧ (∀ p ∈ CATEGORY_PRIORITY, p.2 < DEFAULT_LOWEST_PRIORITY) :=
  best_category_first_minimal_rank ["zzz-cat", "aaa-cat"] (by simp)

/-- C5 counterexample: the override result for SDL carries the override
value inside all_matches — the one-element list [media-libs/libsdl] — so
the override value is present in all_matches, contrary to the claim that
it never is. -/
theorem override_value_appears_in_all_matches :
    alistGet MANUAL_PKG_OVERRIDES "SDL" = some "media-libs/libsdl"
  ∧ (map_package "SDL" (buildMatcher [])).gentoo_match =
      some "media-libs/libsdl"
  ∧ "media-libs/libsdl" ∈ (map_package "SDL" (buildMatcher [])).all_matches :=
  ⟨rfl, rfl, by
    have hm : (map_package "SDL" (buildMatcher [])).all_matches =
        ["media-libs/libsdl"] := rfl
    rw [hm]
    exact List.mem_singleton.mpr rfl⟩

/-- C5 amended: whenever map_package reports a best match it is an element
of all_matches — on the override path all_matches is exactly the
one-element list holding the override value — and whenever all_matches is
empty the best match is absent and the confidence is 0. -/
theorem best_match_drawn_from_all_matches (catalog : Catalog)
    (name : String) :
    (∀ b, (map_package name (buildMatcher catalog)).gentoo_match = some b →
        b ∈ (map_package name (buildMatcher catalog)).all_matches)
  ∧ ((map_package name (buildMatcher catalog)).all_matches = [] →
      (map_package name (buildMatcher catalog)).gentoo_match = none ∧
      (map_package name (buildMatcher catalog)).confidence = 0) := by
  rcases map_package_cases name (buildMatcher catalog) with hdef |
    ⟨nm, req, r, htry, heq⟩
  · rw [hdef]
    exact ⟨fun b hb => absurd hb (by simp [create_match_result]),
      fun _ => ⟨rfl, rfl⟩⟩
  · rw [heq]
    rcases try_map_package_eq_some _ _ _ _ htry with hov |
      ⟨-, mcs, e, hcon, hmc, -, hent, hr⟩
    · obtain ⟨p, -, hrr⟩ := find_manual_override_eq_some _ _ hov
      subst hrr
      constructor
      · intro b hb
        have hb' : p = b := Option.some.inj hb
        subst hb'
        exact List.mem_singleton.mpr rfl
      · intro habs
        simp at habs
    · subst hr
      have hbm : select_best_category mcs ∈ mcs :=
        select_best_category_mem mcs (constrainCats_ne_nil _ _ _ hmc hcon)
      constructor
      · intro b hb
        have hb' : e = b := Option.some.inj hb
        subst hb'
        exact List.mem_filterMap.mpr ⟨select_best_category mcs, hbm, hent⟩
      · intro habs
        have hin : e ∈ mcs.filterMap
            (fun c => entryFor (buildMatcher catalog) nm c) :=
          List.mem_filterMap.mpr ⟨select_best_category mcs, hbm, hent⟩
        dsimp only at habs
        rw [habs] at hin
        simp at hin

/-- Witness for C5: on a one-entry catalog the reported best match
dev-libs/foo is an element of all_matches. -/
theorem best_match_drawn_from_all_matches_witness :
    "dev-libs/foo" ∈
      (map_package "foo" (buildMatcher [("dev-libs", ["foo"])])).all_matches :=
  (best_match_drawn_from_all_matches [("dev-libs", ["foo"])] "foo").1
    "dev-libs/foo" rfl

/-- C7: no entry of all_matches has its category part in the
non-optimizable set, on every path including override results, for every
catalog whose category names are slash-free (as the loader guarantees) and
every source name. -/
theorem all_matches_never_non_optimizable (catalog : Catalog) (name : String)
    (hcat : ∀ cp ∈ catalog, '/' ∉ cp.1.data) :
    ∀ e ∈ (map_package name (buildMatcher catalog)).all_matches,
      catOf e ∉ NON_OPTIMIZABLE_CATEGORIES := by
  intro e he
  rcases map_package_cases name (buildMatcher catalog) with hdef |
    ⟨nm, req, r, htry, heq⟩
  · rw [hdef] at he
    simp [create_match_result] at he
  · rw [heq] at he
    rcases try_map_package_eq_some _ _ _ _ htry with hov |
      ⟨-, mcs, e2, hcon, hmc, -, -, hr⟩
    · obtain ⟨p, hget, hrr⟩ := find_manual_override_eq_some _ _ hov
      subst hrr
      have hep : e = p := by simpa using he
      subst hep
      exact alistGet_override_mem _ _ hget
    · subst hr
      obtain ⟨c, hcmem, hce⟩ := List.mem_filterMap.mp he
      obtain ⟨s, hcase, hs, hbe⟩ := entryFor_eq_some _ _ _ _ hce
      subst hbe
      have hc0 : c ∈ find_matching_categories (buildMatcher catalog) nm :=
        constrainCats_mem _ _ _ hcon c hcmem
      obtain ⟨hno, -, s2, -, hQ⟩ := buildMatcher_inv catalog nm c hc0
      obtain ⟨cp, hcp, hcpc, -⟩ := hQ
      rw [catOf_path c s (hcpc ▸ hcat cp hcp)]
      exact hno

/-- Witness for C7: the single entry produced for foo against a one-entry
catalog has category dev-libs, which is not non-optimizable. -/
theorem all_matches_never_non_optimizable_witness :
    catOf "dev-libs/foo" ∉ NON_OPTIMIZABLE_CATEGORIES :=
  all_matches_never_non_optimizable [("dev-libs", ["foo"])] "foo"
    (by decide) "dev-libs/foo" (by
      have hm : (map_package "foo"
          (buildMatcher [("dev-libs", ["foo"])])).all_matches =
            ["dev-libs/foo"] := rfl
      rw [hm]
      exact List.mem_singleton.mpr rfl)

/-- C8: extract_package_info applies the first rule in declared order
whose pattern matches — every name beginning with pypi-zope. is handled by
the earlier pypi- rule (prefix stripped, required category dev-python, no
rewrite applied), so the later pypi-zope. rule never fires — the function
agrees with first-match search over the declared rule list, and a rule
without a rewrite only strips its pattern. -/
theorem first_declared_rule_wins :
    (∀ s : String, extract_package_info ("pypi-zope." ++ s) =
      ("zope." ++ s, some "dev-python"))
  ∧ (∀ name : String,
      extract_package_info name =
        match PREFIX_MAPPINGS.find? (fun r => strStartsWith name r.pat) with
        | none => (name, none)
        | some r => (applyRule r name, some r.category))
  ∧ (∀ (name : String) (r : TransformRule), r.transform = none →
      applyRule r name = strDropChars name r.pat.length) := by
  refine ⟨?_, fun name => extractAux_eq_find PREFIX_MAPPINGS name, ?_⟩
  · intro s
    have hdata : ("pypi-zope." ++ s).data = ("pypi-zope." : String).data
        ++ s.data := String.data_append _ _
    have hlen10 : ("pypi-zope." : String).data.length = 10 := rfl
    have hsw : ∀ pre : String, pre.data.length ≤ 10 →
        strStartsWith ("pypi-zope." ++ s) pre =
          pre.data.isPrefixOf ("pypi-zope." : String).data := by
      intro pre hl
      unfold strStartsWith
      rw [hdata]
      exact isPrefixOf_append_of_length_le _ _ _ (by rw [hlen10]; exact hl)
    have h1 : strStartsWith ("pypi-zope." ++ s) "golang-" = false := by
      rw [hsw _ (by decide)]; decide
    have h2 : strStartsWith ("pypi-zope." ++ s) "jdk-" = false := by
      rw [hsw _ (by decide)]; decide
    have h3 : strStartsWith ("pypi-zope." ++ s) "mvn-" = false := by
      rw [hsw _ (by decide)]; decide
    have h4 : strStartsWith ("pypi-zope." ++ s) "perl-" = false := by
      rw [hsw _ (by decide)]; decide
    have h5 : strStartsWith ("pypi-zope." ++ s) "php-" = false := by
      rw [hsw _ (by decide)]; decide
    have h6 : strStartsWith ("pypi-zope." ++ s) "pypi-" = true := by
      rw [hsw _ (by decide)]; decide
    have hdrop : strDropChars ("pypi-zope." ++ s) ("pypi-" : String).length
        = "zope." ++ s := by
      unfold strDropChars
      rw [hdata]
      have h5' : ("pypi-" : String).length = 5 := rfl
      rw [h5', drop_append_of_le 5 _ _ (by rw [hlen10]; decide)]
      have hz : (("pypi-zope." : String).data.drop 5) =
          ("zope." : String).data := rfl
      rw [hz]
      apply String.ext
      rw [String.data_append]
    unfold extract_package_info PREFIX_MAPPINGS
    simp only [extractAux, h1, h2, h3, h4, h5, h6, Bool.false_eq_true,
      if_false, if_true, applyRule]
    rw [hdrop]
  · intro name r hr
    unfold applyRule
    rw [hr]

/-- C10 counterexample: against the catalog whose only package is the
empty-named entry in dev-libs, the index reports dev-libs as eligible for
the empty name and the spelling lookup returns a value (the empty string,
not None) — yet try_map_package returns None, because the Python
truthiness tests on the spelling treat the empty string like a missing
one, so the supposedly unreachable internal-consistency branches do
fire. -/
theorem truthiness_branch_reachable_counterexample :
    find_matching_categories (buildMatcher [("dev-libs", [""])]) ""
      = ["dev-libs"]
  ∧ get_case_in_category (buildMatcher [("dev-libs", [""])]) "" "dev-libs"
      = some ""
  ∧ try_map_package "" (buildMatcher [("dev-libs", [""])]) none = none :=
  ⟨rfl, rfl, rfl⟩

/-- C10 amended: for every built matcher, every category the index reports
eligible for a name has a spelling present (the lookup never returns
None); and when every catalog package name is non-empty — so no spelling
is the empty string the truthiness tests reject — the internal-consistency
branches never fire: a non-override name with a non-empty eligible list
resolves to a result whose all_matches has exactly one entry per
eligible-list element. -/
theorem eligible_category_spelling_present (catalog : Catalog)
    (name : String) :
    (∀ c ∈ find_matching_categories (buildMatcher catalog) name,
        (get_case_in_category (buildMatcher catalog) name c).isSome = true)
  ∧ ((∀ cp ∈ catalog, ∀ p ∈ cp.2, p ≠ "") →
      find_manual_override name = none →
      find_matching_categories (buildMatcher catalog) name ≠ [] →
      ∃ r, try_map_package name (buildMatcher catalog) none = some r ∧
        r.all_matches.length =
          (find_matching_categories (buildMatcher catalog) name).length) := by
  constructor
  · intro c hc
    obtain ⟨-, -, str, hcase, -⟩ := buildMatcher_inv catalog name c hc
    rw [hcase]
    rfl
  · intro hne hov hmc
    have hent_all : ∀ c ∈ find_matching_categories (buildMatcher catalog) name,
        (entryFor (buildMatcher catalog) name c).isSome = true := by
      intro c hc
      obtain ⟨-, -, str, hcase, hQ⟩ := buildMatcher_inv catalog name c hc
      obtain ⟨cp, hcp, -, hsin⟩ := hQ
      rw [entryFor_of_spelling _ _ _ _ hcase (hne cp hcp str hsin)]
      rfl
    have hex : package_exists (buildMatcher catalog) name = true := by
      obtain ⟨c0, hc0⟩ := List.exists_mem_of_ne_nil _ hmc
      exact (buildMatcher_inv catalog name c0 hc0).2.1
    have hbm : select_best_category
        (find_matching_categories (buildMatcher catalog) name)
        ∈ find_matching_categories (buildMatcher catalog) name :=
      select_best_category_mem _ hmc
    obtain ⟨e, hent⟩ := Option.isSome_iff_exists.mp (hent_all _ hbm)
    refine ⟨_, try_map_package_success name _ none _ e hov hex hmc rfl hent,
      ?_⟩
    exact length_filterMap_of_isSome _ _ hent_all

/-- Witness for C10: on a one-entry catalog with a non-empty package name
the resolution succeeds with one all_matches entry per eligible-list
element. -/
theorem eligible_category_spelling_present_witness :
    ∃ r, try_map_package "foo" (buildMatcher [("dev-libs", ["foo"])]) none
        = some r ∧
      r.all_matches.length =
        (find_matching_categories (buildMatcher [("dev-libs", ["foo"])])
          "foo").length :=
  (eligible_category_spelling_present [("dev-libs", ["foo"])] "foo").2
    (by decide) rfl (by decide)

/-- Witness for C8: the pypi-zope.interface name is handled by the pypi-
rule, and a no-rewrite rule only strips its pattern. -/
theorem first_declared_rule_wins_witness :
    extract_package_info ("pypi-zope." ++ "interface") =
      ("zope." ++ "interface", some "dev-python")
  ∧ applyRule ⟨"perl-", "dev-perl", none⟩ "perl-Foo" =
      strDropChars "perl-Foo" ("perl-" : String).length :=
  ⟨first_declared_rule_wins.1 "interface",
    first_declared_rule_wins.2.2 "perl-Foo" ⟨"perl-", "dev-perl", none⟩ rfl⟩
